import Mathlib

/-!
# Verification of the quickpic image-tool hooks and pipelines

Shallow embedding of:
* `useAsyncMemo` (src/unnamed/part_000) — an effect that, on every change of
  its dependency signature, writes the loading state and invokes the producer;
  each settlement of a producer writes its value (or the error mapping of its
  rejection) into the state, with no staleness check.
* `useFileUploader` (src/unnamed/part_001) — the upload session built on
  `useAsyncMemo`, with the object-URL cleanup effect keyed on `imageBlobUrl`.
* `convertToPng` of the rounded-border tool and the svg-to-png tool
  (src/src/app/(tools)/...), including the canvas drawing model, the clip-path
  construction, the canvas sizing, the download file names, and the
  error/download control flow.

State changes are modelled as event traces: an `Ev.effectRun i` is the i-th
run of the memo effect (triggered by the i-th dependency-signature change),
an `Ev.complete i` is the settlement of the producer started by that run.
The committed state is the left fold of the per-event writes, exactly
mirroring the order in which `setResult` calls reach the store.
-/

namespace AsyncMemo

/-- Settlement of one producer invocation: the promise resolves or rejects. -/
inductive Outcome (T E : Type) where
  | resolve (v : T)
  | reject (e : E)
deriving DecidableEq, Repr

/-- Events in commit order.  `effectRun i` models the body of the
`useEffect` running for the i-th dependency signature: it performs
`setResult(loadingState)` and invokes `factory()` (the producer).
`complete i` models the `.then` handler of that producer's promise firing. -/
inductive Ev where
  | effectRun (i : Nat)
  | complete (i : Nat)
deriving DecidableEq, Repr

variable {T L E : Type}

/-- The default error mapping of the source:
`defaultErrorState = useCallback(() => loadingState, ...)` — it ignores the
error and reports the loading state. -/
def defaultErrorState (loadingState : L) : E → L := fun _ => loadingState

/-- The error mapping actually used: the supplied `errorState` if any,
else `defaultErrorState` (`if (!errorState) errorState = defaultErrorState`). -/
def errorStateUsed (loadingState : L) (errorState? : Option (E → L)) : E → L :=
  match errorState? with
  | some f => f
  | none => defaultErrorState loadingState

/-- The `setResult` write performed by one event.  An effect run writes
`loadingState`; a completion writes the resolved value, or the error mapping
of the rejection.  There is no staleness check in the source: the write is
unconditional. -/
def evWrite (loadingState : L) (errorState : E → L)
    (producers : Nat → Outcome T E) : Ev → T ⊕ L
  | Ev.effectRun _ => Sum.inr loadingState
  | Ev.complete i =>
      match producers i with
      | Outcome.resolve v => Sum.inl v
      | Outcome.reject e => Sum.inr (errorState e)

/-- The committed result after a trace of events, starting from the initial
`useState(loadingState)` value. -/
def run (loadingState : L) (errorState : E → L)
    (producers : Nat → Outcome T E) (evs : List Ev) : T ⊕ L :=
  evs.foldl (fun _ ev => evWrite loadingState errorState producers ev)
    (Sum.inr loadingState)

/-- Occurrence count of an event in a trace. -/
def countEv (e : Ev) : List Ev → Nat
  | [] => 0
  | a :: rest => (if a = e then 1 else 0) + countEv e rest

/-- Number of producer invocations issued for signature `i` in a trace:
the producer is invoked exactly in the body of the effect run. -/
def invocations (i : Nat) (evs : List Ev) : Nat :=
  countEv (Ev.effectRun i) evs

/-- Schedule validity: effect runs occur for signatures `next, next+1, ...`
in order (each signature change triggers exactly one new effect run), and a
producer settles at most once, only after its invoking effect run. -/
def validFrom (next : Nat) (started done : List Nat) : List Ev → Bool
  | [] => true
  | Ev.effectRun i :: rest =>
      i == next && validFrom (next + 1) (i :: started) done rest
  | Ev.complete i :: rest =>
      decide (i ∈ started) && !(decide (i ∈ done)) &&
        validFrom next started (i :: done) rest

/-- A valid schedule from the initial state. -/
def ValidSchedule (evs : List Ev) : Prop := validFrom 0 [] [] evs = true

instance : DecidablePred ValidSchedule := fun evs =>
  inferInstanceAs (Decidable (validFrom 0 [] [] evs = true))

end AsyncMemo


open AsyncMemo

namespace Uploader

/-- A file handed to the session (`File`): its name and the pixel dimensions
its decode will report (`img.naturalWidth` / `img.naturalHeight`). -/
structure FileData where
  name : String
  width : Nat
  height : Nat
deriving DecidableEq, Repr

/-- `imageMetadata`: `{ ...dimensions, name: imageBlob.name }`. -/
structure Meta where
  width : Nat
  height : Nat
  name : String
deriving DecidableEq, Repr

/-- The value committed by `useAsyncMemo` inside `useFileUploader`:
`{ imageBlobUrl, imageMetadata }`.  Display handles (object URLs) are
identified by the index of the producer invocation that allocated them —
`URL.createObjectURL` returns a fresh URL per call, so handles of distinct
invocations are distinct. -/
structure UploadValue where
  imageBlobUrl : Option Nat
  imageMetadata : Option Meta
deriving DecidableEq, Repr

/-- The loading value passed to `useAsyncMemo`:
`{ imageBlobUrl: null, imageMetadata: null }`. -/
def loadingValue : UploadValue := ⟨none, none⟩

/-- A session behaviour: `files j` is the `imageBlob` value at the j-th
dependency-signature change (`setImageBlob` via upload, paste, drop, or
`cancel`, which sets it to `null`). -/
def SessionFiles : Type := Nat → Option FileData

/-- The resolved value of the j-th producer invocation of the session's
factory: with no blob it resolves `{ imageBlobUrl: null, imageMetadata:
null }`; with a blob it allocates the display handle `j` and resolves the
handle together with the decoded dimensions and the file name.  (A producer
whose decode never settles simply has no `complete` event in the trace.) -/
def producerOut (files : SessionFiles) (j : Nat) : UploadValue :=
  match files j with
  | none => ⟨none, none⟩
  | some f => ⟨some j, some ⟨f.width, f.height, f.name⟩⟩

/-- The `setResult` write performed by each event — `useAsyncMemo`'s event
semantics instantiated at the uploader's factory (all settlements are
resolutions; the write is unconditional, there is no staleness check). -/
def uwrite (files : SessionFiles) : AsyncMemo.Ev → UploadValue
  | AsyncMemo.Ev.effectRun _ => loadingValue
  | AsyncMemo.Ev.complete j => producerOut files j

/-- Committed state after a trace of events. -/
def finalState (files : SessionFiles) (evs : List AsyncMemo.Ev) :
    UploadValue :=
  evs.foldl (fun _ ev => uwrite files ev) loadingValue

/-- The sequence of committed states along a trace (initial state first). -/
def stateSeq (files : SessionFiles) (evs : List AsyncMemo.Ev) :
    List UploadValue :=
  loadingValue :: evs.map (uwrite files)

/-- The sequence of committed `imageBlobUrl` values along a trace — the
dependency the cleanup effect `useEffect(() => () => revoke(imageBlobUrl),
[imageBlobUrl])` is keyed on. -/
def urlSeq (files : SessionFiles) (evs : List AsyncMemo.Ev) :
    List (Option Nat) :=
  (stateSeq files evs).map (fun s => s.imageBlobUrl)

/-- Handles allocated during a trace: `URL.createObjectURL` runs in the
factory body, synchronously at the effect run, whenever a blob is present. -/
def allocatedHandles (files : SessionFiles) (evs : List AsyncMemo.Ev) :
    List Nat :=
  evs.filterMap fun e =>
    match e with
    | AsyncMemo.Ev.effectRun j => if (files j).isSome then some j else none
    | AsyncMemo.Ev.complete _ => none

/-- Release calls emitted while the session is mounted: React runs the
previous cleanup exactly when the `imageBlobUrl` dependency changes, and the
cleanup revokes the previous value when it is non-null. -/
def revokesDuring : List (Option Nat) → List Nat
  | a :: b :: rest =>
      (if a = b then []
       else match a with
            | some u => [u]
            | none => []) ++ revokesDuring (b :: rest)
  | _ => []

/-- The final cleanup at teardown (unmount): revokes the current value. -/
def teardownRevoke (seq : List (Option Nat)) : List Nat :=
  match seq.getLast? with
  | some (some u) => [u]
  | _ => []

/-- All release calls over the session's lifetime. -/
def revokes (seq : List (Option Nat)) : List Nat :=
  revokesDuring seq ++ teardownRevoke seq

/-- Occurrence count in a list of handles. -/
def countN (u : Nat) : List Nat → Nat
  | [] => 0
  | a :: rest => (if a = u then 1 else 0) + countN u rest

/-- Occurrence count of a committed handle in a state sequence. -/
def countOpt (u : Nat) : List (Option Nat) → Nat
  | [] => 0
  | a :: rest => (if a = some u then 1 else 0) + countOpt u rest

/-- The current dependency signature after a trace: the index of the latest
effect run, i.e. of the latest `setImageBlob` the session has reacted to. -/
def currentSig (evs : List AsyncMemo.Ev) : Option Nat :=
  (evs.filterMap fun e =>
    match e with
    | AsyncMemo.Ev.effectRun j => some j
    | AsyncMemo.Ev.complete _ => none).getLast?

end Uploader

namespace Canvas

/-- Premultiplied-alpha RGBA color with rational components in `[0,1]`. -/
structure RGBA where
  r : ℚ
  g : ℚ
  b : ℚ
  a : ℚ
deriving DecidableEq, Repr

/-- The fully transparent pixel, the value `clearRect` writes. -/
def clearPx : RGBA := ⟨0, 0, 0, 0⟩

/-- Source-over compositing on premultiplied colors, the canvas default
used by `fillRect` and `drawImage`. -/
def srcOver (s d : RGBA) : RGBA :=
  ⟨s.r + d.r * (1 - s.a), s.g + d.g * (1 - s.a),
    s.b + d.b * (1 - s.a), s.a + d.a * (1 - s.a)⟩

/-- Canvas contents as a function of plane coordinates. -/
def Surface : Type := ℚ → ℚ → RGBA

/-- Membership in the axis-aligned rectangle `[0,w] × [0,h]`. -/
def inRect (w h x y : ℚ) : Bool :=
  decide (0 ≤ x) && decide (x ≤ w) && decide (0 ≤ y) && decide (y ≤ h)

/-- `ctx.clearRect(0, 0, w, h)`. -/
def clearRect (w h : ℚ) (c : Surface) : Surface :=
  fun x y => if inRect w h x y then clearPx else c x y

/-- The background fill choice of the rounded-border tool. -/
inductive BackgroundOption where
  | white
  | black
  | transparent
deriving DecidableEq, Repr

/-- The CSS colors named by the `fillStyle` strings `"white"`, `"black"`,
`"transparent"` (the last parses as `rgba(0,0,0,0)`), premultiplied. -/
def cssColor : BackgroundOption → RGBA
  | BackgroundOption.white => ⟨1, 1, 1, 1⟩
  | BackgroundOption.black => ⟨0, 0, 0, 1⟩
  | BackgroundOption.transparent => ⟨0, 0, 0, 0⟩

/-- `ctx.fillRect(0, 0, w, h)` with the current `fillStyle`. -/
def fillRect (col : RGBA) (w h : ℚ) (c : Surface) : Surface :=
  fun x y => if inRect w h x y then srcOver col (c x y) else c x y

/-- Path commands of the 2D context used by the rounded-border tool. -/
inductive PathCmd where
  | moveTo (x y : ℚ)
  | lineTo (x y : ℚ)
  | quadraticCurveTo (cx cy x y : ℚ)
deriving DecidableEq, Repr

/-- The clip path the rounded-border `convertToPng` builds, verbatim:
four edges and four corner quadratics with controls at the rectangle
corners, all in terms of the given `radius` (no clamping applied here). -/
def pathCommands (w h radius : ℚ) : List PathCmd :=
  [ PathCmd.moveTo radius 0,
    PathCmd.lineTo (w - radius) 0,
    PathCmd.quadraticCurveTo w 0 w radius,
    PathCmd.lineTo w (h - radius),
    PathCmd.quadraticCurveTo w h (w - radius) h,
    PathCmd.lineTo radius h,
    PathCmd.quadraticCurveTo 0 h 0 (h - radius),
    PathCmd.lineTo 0 radius,
    PathCmd.quadraticCurveTo 0 0 radius 0 ]

/-- Inner side of one corner quadratic, in corner-local coordinates
`(dx, dy)` measured from that corner: the curve from `(radius, 0)` to
`(0, radius)` with control `(0, 0)` is `dx = t²·radius`,
`dy = (1−t)²·radius`, so the inner side is `√dx + √dy ≥ √radius`,
i.e. `radius ≤ dx + dy` or `(radius − dx − dy)² ≤ 4·dx·dy`. -/
def cornerInside (dx dy radius : ℚ) : Bool :=
  decide (radius ≤ dx + dy) || decide ((radius - dx - dy) ^ 2 ≤ 4 * dx * dy)

/-- The filled region of the path of `pathCommands w h radius` (for a
non-negative radius): inside the rectangle and on the inner side of each of
the four corner curves. -/
def insideClip (w h radius x y : ℚ) : Bool :=
  inRect w h x y && cornerInside x y radius &&
    cornerInside (w - x) y radius && cornerInside (w - x) (h - y) radius &&
    cornerInside x (h - y) radius

/-- `ctx.drawImage(img, 0, 0, w, h)` under the active rounded-rect clip:
pixels outside the clip region are untouched. -/
def drawImageClipped (img : ℚ → ℚ → RGBA) (w h radius : ℚ)
    (c : Surface) : Surface :=
  fun x y =>
    if insideClip w h radius x y then srcOver (img x y) (c x y) else c x y

/-- The rounded-border raster, op for op as in the source's `onload`:
`clearRect`; `fillStyle = background`; `fillRect` over the full canvas;
rounded-rect `clip()`; `drawImage` of the source at native size. -/
def roundedRender (img : ℚ → ℚ → RGBA) (w h radius : ℚ)
    (bg : BackgroundOption) : Surface :=
  drawImageClipped img w h radius
    (fillRect (cssColor bg) w h (clearRect w h (fun _ _ => clearPx)))

/-- Modelled from the spec: the target corner radius is "clamped to
non-negative" on input; the control providing that clamping
(`BorderRadiusSelector`) is not among the sources under verification. -/
def clampRadius (radius : ℚ) : ℚ := max radius 0

/-- The rounded tool's `canvasProps`: `{ width, height }` taken from
`imageMetadata` unchanged — output size is the native size. -/
def roundedCanvasProps (m : Uploader.Meta) : ℚ × ℚ :=
  ((m.width : ℚ), (m.height : ℚ))

/-- The svg tool's canvas dimensions:
`width = imageMetadata.width * scale, height = imageMetadata.height * scale`
— no rounding is applied anywhere. -/
def svgCanvasProps (m : Uploader.Meta) (scale : ℚ) : ℚ × ℚ :=
  ((m.width : ℚ) * scale, (m.height : ℚ) * scale)

/-- `ctx.drawImage(img, 0, 0, w, h)` with no clip: the destination rectangle
is sampled from the source at its natural size. -/
def drawImageScaled (img : ℚ → ℚ → RGBA) (natW natH w h : ℚ)
    (c : Surface) : Surface :=
  fun x y =>
    if inRect w h x y then
      srcOver (img (x * natW / w) (y * natH / h)) (c x y)
    else c x y

/-- The svg-rasterize raster, as in the source's `onload`: clear the canvas
(sized by `svgCanvasProps`), then draw the source scaled to `w × h`; no
clipping and no background fill. -/
def svgRender (img : ℚ → ℚ → RGBA) (natW natH scale : ℚ) : Surface :=
  drawImageScaled img natW natH (natW * scale) (natH * scale)
    (clearRect (natW * scale) (natH * scale) (fun _ _ => clearPx))

/-- A direct unscaled draw of the source: clear, then draw at native size. -/
def directDraw (img : ℚ → ℚ → RGBA) (natW natH : ℚ) : Surface :=
  drawImageScaled img natW natH natW natH
    (clearRect natW natH (fun _ _ => clearPx))

end Canvas

namespace Naming

/-- The characters of the literal pattern `".svg"`. -/
def svgPat : List Char := ['.', 's', 'v', 'g']

/-- JS `String.prototype.replace` with a string pattern: replaces only the
first occurrence of the pattern, and leaves the string unchanged when the
pattern does not occur. -/
def replaceFirst (pat rep : List Char) : List Char → List Char
  | [] => []
  | c :: rest =>
      if pat.isPrefixOf (c :: rest) then rep ++ (c :: rest).drop pat.length
      else c :: replaceFirst pat rep rest

/-- Substring occurrence test. -/
def containsSub (pat : List Char) : List Char → Bool
  | [] => pat.isEmpty
  | c :: rest => pat.isPrefixOf (c :: rest) || containsSub pat rest

/-- The svg tool's download attribute:
`` `${svgFileName.replace(".svg", "")}-${scale}x.png` ``.  The scale is
rendered by `toString`; the theorems below use integer scales, on which the
JS number rendering and the Lean rendering agree. -/
def svgDownloadName (name : String) (scale : ℚ) : String :=
  ⟨replaceFirst svgPat [] name.data⟩ ++ "-" ++ toString scale ++ "x.png"

/-- One step of the rounded tool's name derivation
(`imageFileName.replace(/\..+$/, "")`): the regex deletes everything from
the leftmost dot that is followed by at least one character, to the end. -/
def stripFromFirstDot : List Char → List Char
  | [] => []
  | c :: rest =>
      if c = '.' ∧ rest ≠ [] then [] else c :: stripFromFirstDot rest

/-- The rounded tool's download attribute:
`` `${imageFileName.replace(/\..+$/, "")}.png` ``. -/
def roundedDownloadName (name : String) : String :=
  ⟨stripFromFirstDot name.data⟩ ++ ".png"

end Naming

namespace Pipeline

/-- The host facts `convertToPng` consults: whether `props.canvas` is
non-null, whether `getContext("2d")` yields a context, and whether
`canvas.toBlob` produces a blob. -/
structure CanvasEnv where
  canvasPresent : Bool
  contextAvailable : Bool
  blobCreated : Bool
deriving DecidableEq, Repr

/-- The observable outcome of one `convertToPng()` call: the settlement of
the promise `convertToPng` itself returns, the settlement of the detached
`saveImage()` promise started inside `img.onload` (if it starts at all), and
the download clicks triggered. -/
structure ConvertOutcome where
  pipeline : Except String Unit
  save : Option (Except String Unit)
  downloads : List String
deriving Repr

/-- The control flow shared verbatim by both tools' `convertToPng`:
`ctx = props.canvas?.getContext("2d")` and a throw (promise rejection) when
it is absent; otherwise the pipeline promise resolves once `img.src` is set,
and the later `onload` handler draws and starts the detached `saveImage`,
which re-checks the canvas, awaits `toBlob`, and only on success creates the
object URL and clicks the download link. -/
def convertToPng (env : CanvasEnv) (filename : String) : ConvertOutcome :=
  if env.canvasPresent && env.contextAvailable then
    { pipeline := Except.ok ()
      save := some
        (if env.canvasPresent then
          if env.blobCreated then Except.ok ()
          else Except.error "Canvas blob could not be created"
         else Except.error "Canvas not present")
      downloads :=
        if env.canvasPresent && env.blobCreated then [filename] else [] }
  else
    { pipeline := Except.error "Failed to get canvas context"
      save := none
      downloads := [] }

/-- The rounded-border tool's export call with its file naming. -/
def roundedConvert (env : CanvasEnv) (name : String) : ConvertOutcome :=
  convertToPng env (Naming.roundedDownloadName name)

/-- The svg tool's export call with its file naming. -/
def svgConvert (env : CanvasEnv) (name : String) (scale : ℚ) :
    ConvertOutcome :=
  convertToPng env (Naming.svgDownloadName name scale)

end Pipeline

namespace Accept

/-- A file offered to a tool: its name and MIME type. -/
structure PastedFile where
  name : String
  mime : String
deriving DecidableEq, Repr

/-- Modelled from the spec: the paste bridge (and the dropzone) "selects the
first item whose type matches an accepted-type allowlist (MIME wildcard
patterns and extensions)".  An entry starting with `.` matches by file-name
extension; an entry ending in `/*` matches any MIME type with that prefix;
any other entry must equal the MIME type exactly.  The matching components
(`use-clipboard-paste`, `FileDropzone`) are not among the sources under
verification. -/
def typeMatches (entry : String) (f : PastedFile) : Bool :=
  if ['.'].isPrefixOf entry.data then entry.data.isSuffixOf f.name.data
  else if ['/', '*'].isSuffixOf entry.data then
    entry.data.dropLast.isPrefixOf f.mime.data
  else entry == f.mime

/-- Whether a file matches any entry of an allowlist. -/
def matchesAllowlist (types : List String) (f : PastedFile) : Bool :=
  types.any fun t => typeMatches t f

/-- The allowlist hardwired into `useFileUploader`'s clipboard-paste wiring
(every consumer of the hook gets it, the SVG tool included). -/
def uploaderPasteTypes : List String :=
  ["image/*", ".jpg", ".jpeg", ".png", ".webp", ".svg"]

/-- The allowlist the SVG tool passes to its dropzone. -/
def svgDropTypes : List String := ["image/svg+xml", ".svg"]

end Accept


namespace AsyncMemo

variable {T L E : Type}

/-- Helper: the fold of unconditional writes is the write of the last event. -/
lemma run_append_single (loadingState : L) (errorState : E → L)
    (producers : Nat → Outcome T E) (evs : List Ev) (e : Ev) :
    run loadingState errorState producers (evs ++ [e]) =
      evWrite loadingState errorState producers e := by
  unfold run
  rw [List.foldl_append]
  rfl

/-- Helper: a nonempty trace decomposes as its front and its last event. -/
lemma exists_dropLast (evs : List Ev) (h : evs ≠ []) :
    ∃ front e, evs = front ++ [e] := by
  induction evs with
  | nil => exact absurd rfl h
  | cons a rest ih =>
      cases rest with
      | nil => exact ⟨[], a, rfl⟩
      | cons b r =>
          obtain ⟨front, e, hfe⟩ := ih (by simp)
          exact ⟨a :: front, e, by simp [hfe]⟩

/-- Helper: occurrence counts of members are positive. -/
lemma one_le_countEv_of_mem {e : Ev} {evs : List Ev} (h : e ∈ evs) :
    1 ≤ countEv e evs := by
  induction evs with
  | nil => cases h
  | cons a rest ih =>
      rcases List.mem_cons.mp h with h1 | h2
      · simp [countEv, h1]
      · have := ih h2
        simp only [countEv]
        omega

/-- Helper: counts distribute over trace concatenation. -/
lemma countEv_append (e : Ev) (xs ys : List Ev) :
    countEv e (xs ++ ys) = countEv e xs + countEv e ys := by
  induction xs with
  | nil => simp [countEv]
  | cons a rest ih =>
      simp only [List.cons_append, countEv, List.append_eq, ih]
      omega

/-- Helper: a prefix of a valid schedule is valid from the same checker
state. -/
lemma validFrom_append :
    ∀ (xs ys : List Ev) (next : Nat) (started done : List Nat),
      validFrom next started done (xs ++ ys) = true →
      validFrom next started done xs = true := by
  intro xs
  induction xs with
  | nil => intro ys next started done _; rfl
  | cons e rest ih =>
      intro ys next started done hv
      cases e with
      | effectRun i =>
          simp only [List.cons_append, validFrom, Bool.and_eq_true] at hv ⊢
          exact ⟨hv.1, ih ys _ _ _ hv.2⟩
      | complete i =>
          simp only [List.cons_append, validFrom, Bool.and_eq_true] at hv ⊢
          exact ⟨hv.1, ih ys _ _ _ hv.2⟩

/-- Helper: in a valid schedule an effect run for each signature occurs at
most once, and never for a signature below `next`. -/
lemma validFrom_count_effectRun (i : Nat) :
    ∀ (evs : List Ev) (next : Nat) (started done : List Nat),
      validFrom next started done evs = true →
      countEv (Ev.effectRun i) evs ≤ 1 ∧
        (i < next → countEv (Ev.effectRun i) evs = 0) := by
  intro evs
  induction evs with
  | nil => intro next started done _; simp [countEv]
  | cons ev rest ih =>
      intro next started done hv
      cases ev with
      | effectRun j =>
          simp only [validFrom, Bool.and_eq_true, beq_iff_eq] at hv
          obtain ⟨hj, hrest⟩ := hv
          obtain ⟨hle, hlt⟩ := ih (next + 1) (j :: started) done hrest
          by_cases hij : Ev.effectRun j = Ev.effectRun i
          · have hi : j = i := by injection hij
            have h0 : countEv (Ev.effectRun i) rest = 0 := hlt (by omega)
            simp only [countEv, if_pos hij, h0]
            exact ⟨le_refl 1, fun hcontra => absurd hcontra (by omega)⟩
          · simp only [countEv, if_neg hij, Nat.zero_add]
            exact ⟨hle, fun h2 => hlt (by omega)⟩
      | complete j =>
          simp only [validFrom, Bool.and_eq_true] at hv
          obtain ⟨_, hrest⟩ := hv
          obtain ⟨hle, hlt⟩ := ih next started (j :: done) hrest
          have hne : Ev.complete j ≠ Ev.effectRun i := by simp
          simp only [countEv, if_neg hne, Nat.zero_add]
          exact ⟨hle, hlt⟩

/-- Helper: in a valid schedule each producer settles at most once, and a
producer recorded as done never settles again. -/
lemma validFrom_count_complete (i : Nat) :
    ∀ (evs : List Ev) (next : Nat) (started done : List Nat),
      validFrom next started done evs = true →
      countEv (Ev.complete i) evs ≤ 1 ∧
        (i ∈ done → countEv (Ev.complete i) evs = 0) := by
  intro evs
  induction evs with
  | nil => intro next started done _; simp [countEv]
  | cons ev rest ih =>
      intro next started done hv
      cases ev with
      | effectRun j =>
          simp only [validFrom, Bool.and_eq_true, beq_iff_eq] at hv
          obtain ⟨hj, hrest⟩ := hv
          obtain ⟨hle, hdone⟩ := ih (next + 1) (j :: started) done hrest
          have hne : Ev.effectRun j ≠ Ev.complete i := by simp
          simp only [countEv, if_neg hne, Nat.zero_add]
          exact ⟨hle, hdone⟩
      | complete j =>
          simp only [validFrom, Bool.and_eq_true, Bool.not_eq_true',
            decide_eq_true_eq, decide_eq_false_iff_not] at hv
          obtain ⟨⟨hstart, hnotdone⟩, hrest⟩ := hv
          obtain ⟨hle, hdone⟩ := ih next started (j :: done) hrest
          by_cases hij : Ev.complete j = Ev.complete i
          · have hi : j = i := by injection hij
            have h0 : countEv (Ev.complete i) rest = 0 := hdone (by simp [hi])
            simp only [countEv, if_pos hij, h0]
            refine ⟨le_refl 1, fun hmem => ?_⟩
            exact absurd (hi ▸ hmem) hnotdone
          · simp only [countEv, if_neg hij, Nat.zero_add]
            exact ⟨hle, fun hmem => hdone (List.mem_cons_of_mem _ hmem)⟩

end AsyncMemo

/-- C1 counterexample: `useAsyncMemo` performs no staleness check, so a
producer completion whose dependency signature has been superseded is NOT
discarded.  In the schedule `run 0, run 1, complete 1, complete 0` (two rapid
signature changes whose producers settle in inverted order) the committed
state is producer 0's value, overwriting the state already committed for the
newer signature 1. -/
theorem useAsyncMemo_stale_overwrite_cex :
    ValidSchedule
      [Ev.effectRun 0, Ev.effectRun 1, Ev.complete 1, Ev.complete 0] ∧
    run 99 (defaultErrorState 99)
      (fun i => (Outcome.resolve i : Outcome Nat Nat))
      [Ev.effectRun 0, Ev.effectRun 1, Ev.complete 1, Ev.complete 0] =
        Sum.inl 0 ∧
    (Sum.inl 0 : Nat ⊕ Nat) ≠ Sum.inl 1 := by
  refine ⟨by decide, rfl, by decide⟩

/-- C1 amended: every `setResult` write is unconditional, so the committed
state after any trace is the write of the trace's final event — last writer
by completion/commit time wins, not last writer by dependency identity.  In
particular a trace ending with `complete i` commits producer `i`'s outcome
even when signature `i` has been superseded, and the metadata committed for
a rapid `replace(file)` sequence is that of the last-completing producer,
which is the last file only when completions occur in call order. -/
theorem useAsyncMemo_last_completion_wins {T L E : Type}
    (loadingState : L) (errorState : E → L) (producers : Nat → Outcome T E)
    (front : List Ev) (e : Ev) :
    run loadingState errorState producers (front ++ [e]) =
      evWrite loadingState errorState producers e :=
  run_append_single loadingState errorState producers front e

/-- C2: a rejected producer reports `errorState(error)` when an error mapping
is supplied and the loading state otherwise (the default error mapping of the
source ignores the error and returns `loadingState`); and in a valid schedule
the producer for a signature is invoked at most once — the rejection handler
only writes state, so no retry occurs for a signature until it changes. -/
theorem useAsyncMemo_rejection_reports_error {T L E : Type}
    (loadingState : L) (f : E → L) (producers : Nat → Outcome T E)
    (front : List Ev) (i : Nat) (e : E)
    (hrej : producers i = Outcome.reject e)
    (evs : List Ev) (hvalid : ValidSchedule evs) :
    run loadingState (errorStateUsed loadingState (some f)) producers
        (front ++ [Ev.complete i]) = Sum.inr (f e) ∧
    run loadingState (errorStateUsed loadingState none) producers
        (front ++ [Ev.complete i]) = Sum.inr loadingState ∧
    invocations i evs ≤ 1 := by
  refine ⟨?_, ?_, ?_⟩
  · rw [run_append_single]
    simp [evWrite, hrej, errorStateUsed]
  · rw [run_append_single]
    simp [evWrite, hrej, errorStateUsed, defaultErrorState]
  · exact (validFrom_count_effectRun i evs 0 [] [] hvalid).1

/-- Witness for `useAsyncMemo_rejection_reports_error` at a concrete
instance: producer 0 rejects with error 5, error mapping adds 100. -/
theorem useAsyncMemo_rejection_reports_error_witness :
    ((fun _ => (Outcome.reject 5 : Outcome Nat Nat)) 0 =
        Outcome.reject 5) ∧
    ValidSchedule [Ev.effectRun 0, Ev.complete 0] ∧
    (run 7 (errorStateUsed 7 (some (fun e => e + 100)))
        (fun _ => (Outcome.reject 5 : Outcome Nat Nat))
        ([Ev.effectRun 0] ++ [Ev.complete 0]) = Sum.inr 105 ∧
      run 7 (errorStateUsed 7 none)
        (fun _ => (Outcome.reject 5 : Outcome Nat Nat))
        ([Ev.effectRun 0] ++ [Ev.complete 0]) = Sum.inr 7 ∧
      invocations 0 [Ev.effectRun 0, Ev.complete 0] ≤ 1) :=
  ⟨rfl, by decide,
    useAsyncMemo_rejection_reports_error 7 (fun e => e + 100)
      (fun _ => Outcome.reject 5) [Ev.effectRun 0] 0 5 rfl
      [Ev.effectRun 0, Ev.complete 0] (by decide)⟩

namespace Uploader

open AsyncMemo

/-- Helper: committed state after a trace ending in event `e` is `e`'s write. -/
lemma finalState_append_single (files : SessionFiles)
    (front : List Ev) (e : Ev) :
    finalState files (front ++ [e]) = uwrite files e := by
  unfold finalState
  rw [List.foldl_append]
  rfl

/-- Helper: the url sequence of a trace ending in `e`. -/
lemma urlSeq_append_single (files : SessionFiles) (front : List Ev) (e : Ev) :
    urlSeq files (front ++ [e]) =
      urlSeq files front ++ [(uwrite files e).imageBlobUrl] := by
  simp [urlSeq, stateSeq, List.map_append]

/-- Helper: handle counts distribute over concatenation. -/
lemma countN_append (u : Nat) (xs ys : List Nat) :
    countN u (xs ++ ys) = countN u xs + countN u ys := by
  induction xs with
  | nil => simp [countN]
  | cons a rest ih =>
      simp only [List.cons_append, countN, List.append_eq, ih]
      omega

/-- Helper: a handle is committed exactly as often as its producer settles. -/
lemma countOpt_map (files : SessionFiles) (j : Nat) (f : FileData)
    (hf : files j = some f) :
    ∀ evs : List Ev,
      countOpt j (evs.map fun e => (uwrite files e).imageBlobUrl) =
        countEv (Ev.complete j) evs := by
  intro evs
  induction evs with
  | nil => rfl
  | cons e rest ih =>
      cases e with
      | effectRun i =>
          have h1 : (uwrite files (Ev.effectRun i)).imageBlobUrl ≠ some j := by
            simp [uwrite, loadingValue]
          have h2 : (Ev.effectRun i) ≠ (Ev.complete j) := by simp
          simp only [List.map_cons, countOpt, countEv, if_neg h1, if_neg h2, ih]
      | complete k =>
          by_cases hk : k = j
          · subst hk
            have h1 : (uwrite files (Ev.complete k)).imageBlobUrl = some k := by
              simp [uwrite, producerOut, hf]
            simp [List.map_cons, countOpt, countEv, h1, ih]
          · have h1 : (uwrite files (Ev.complete k)).imageBlobUrl ≠ some j := by
              cases hfk : files k <;> simp [uwrite, producerOut, hfk, hk]
            have h2 : (Ev.complete k) ≠ (Ev.complete j) := by simp [hk]
            simp only [List.map_cons, countOpt, countEv, if_neg h1,
              if_neg h2, ih]

/-- Helper: same count stated on the full url sequence. -/
lemma countOpt_urlSeq (files : SessionFiles) (j : Nat) (f : FileData)
    (hf : files j = some f) (evs : List Ev) :
    countOpt j (urlSeq files evs) = countEv (Ev.complete j) evs := by
  have h := countOpt_map files j f hf evs
  simp only [urlSeq, stateSeq, List.map_cons, List.map_map, countOpt] at *
  simpa [loadingValue, Function.comp] using h

/-- Helper: unfolding the mid-session release calls of a sequence. -/
lemma revokesDuring_cons_cons (a b : Option Nat) (rest : List (Option Nat)) :
    revokesDuring (a :: b :: rest) =
      ((if a = b then []
        else match a with
             | some u => [u]
             | none => []) ++ revokesDuring (b :: rest)) := rfl

/-- Helper: unfolding the release calls of a two-or-more-state sequence. -/
lemma revokes_cons_cons (a b : Option Nat) (rest : List (Option Nat)) :
    revokes (a :: b :: rest) =
      ((if a = b then []
        else match a with
             | some u => [u]
             | none => []) ++ revokes (b :: rest)) := by
  unfold revokes
  rw [revokesDuring_cons_cons, List.append_assoc]
  congr 1


/-- Helper: a handle never committed is never released. -/
lemma revokes_count_zero (u : Nat) :
    ∀ seq : List (Option Nat), countOpt u seq = 0 →
      countN u (revokes seq) = 0 := by
  intro seq
  induction seq with
  | nil => intro _; rfl
  | cons a rest ih =>
      cases rest with
      | nil =>
          intro h
          simp only [countOpt] at h
          cases a with
          | none => rfl
          | some v =>
              have hv : v ≠ u := by
                intro hvu
                simp [hvu] at h
              simp [revokes, revokesDuring, teardownRevoke, countN, hv]
      | cons b rest2 =>
          intro h
          simp only [countOpt] at h
          have ha : a ≠ some u := by
            intro hau
            simp [hau] at h
          have h2 : countOpt u (b :: rest2) = 0 := by
            rw [if_neg ha] at h
            simpa [countOpt] using h
          rw [revokes_cons_cons, countN_append, ih h2]
          by_cases hab : a = b
          · simp [hab, countN]
          · cases a with
            | none => simp [hab, countN]
            | some v =>
                have hv : v ≠ u := fun hvu => ha (by rw [hvu])
                simp [hab, countN, hv]

/-- Helper: a handle committed exactly once is released exactly once over the
session's lifetime (at replacement, or at the final teardown). -/
lemma revokes_count_one (u : Nat) :
    ∀ seq : List (Option Nat), countOpt u seq = 1 →
      countN u (revokes seq) = 1 := by
  intro seq
  induction seq with
  | nil => intro h; simp [countOpt] at h
  | cons a rest ih =>
      cases rest with
      | nil =>
          intro h
          simp only [countOpt] at h
          have ha : a = some u := by
            by_contra hau
            simp [if_neg hau] at h
          subst ha
          simp [revokes, revokesDuring, teardownRevoke, countN]
      | cons b rest2 =>
          intro h
          simp only [countOpt] at h
          by_cases hau : a = some u
          · have h2 : countOpt u (b :: rest2) = 0 := by
              rw [if_pos hau] at h
              simp only [countOpt] at h ⊢
              omega
            have hb : b ≠ some u := by
              intro hbu
              simp only [countOpt, if_pos hbu] at h2
              omega
            have hab : a ≠ b := by
              rw [hau]
              exact fun hba => hb hba.symm
            rw [revokes_cons_cons, countN_append, revokes_count_zero u _ h2]
            subst hau
            simp [hab, countN]
          · have h2 : countOpt u (b :: rest2) = 1 := by
              rw [if_neg hau] at h
              simpa [countOpt] using h
            rw [revokes_cons_cons, countN_append, ih h2]
            by_cases hab : a = b
            · simp [hab, countN]
            · cases a with
              | none => simp [hab, countN]
              | some v =>
                  have hv : v ≠ u := fun hvu => hau (by rw [hvu])
                  simp [hab, countN, hv]

/-- Helper: while a handle is the current committed value (it appears last in
the state sequence and nowhere earlier), no release of it has occurred. -/
lemma not_revoked_while_active (u : Nat) :
    ∀ seq : List (Option Nat), seq.getLast? = some (some u) →
      countOpt u seq.dropLast = 0 →
      countN u (revokesDuring seq) = 0 := by
  intro seq
  induction seq with
  | nil => intro h _; simp at h
  | cons a rest ih =>
      cases rest with
      | nil => intro _ _; rfl
      | cons b rest2 =>
          intro hlast hdrop
          rw [List.getLast?_cons_cons] at hlast
          rw [List.dropLast_cons₂] at hdrop
          simp only [countOpt] at hdrop
          have ha : a ≠ some u := by
            intro hau
            simp [hau] at hdrop
          have h2 : countOpt u (b :: rest2).dropLast = 0 := by
            rw [if_neg ha] at hdrop
            omega
          show countN u
            (((if a = b then []
               else match a with
                    | some v => [v]
                    | none => []) ++ revokesDuring (b :: rest2))) = 0
          rw [countN_append, ih hlast h2]
          by_cases hab : a = b
          · simp [hab, countN]
          · cases a with
            | none => simp [hab, countN]
            | some v =>
                have hv : v ≠ u := fun hvu => ha (by rw [hvu])
                simp [hab, countN, hv]

end Uploader

open Uploader

/-- C3 counterexample: a display handle allocated by the Upload Session whose
dimension probe never settles (`getImageDimensions` resolves only on
`img.onload`, which a malformed image never fires; the design records decode
stalls as unhandled) receives zero release calls over the session's whole
lifetime, teardown included — not exactly one.  Trace: a single
`replace(file)` whose producer never completes. -/
theorem uploader_unreleased_handle_cex :
    ValidSchedule [Ev.effectRun 0] ∧
    allocatedHandles (fun _ => some ⟨"photo.png", 4, 3⟩) [Ev.effectRun 0] =
      [0] ∧
    countN 0
      (revokes (urlSeq (fun _ => some ⟨"photo.png", 4, 3⟩)
        [Ev.effectRun 0])) = 0 := by
  refine ⟨by decide, rfl, rfl⟩

/-- C3 amended: every display handle whose producer settles during the
session is released exactly once over the session's lifetime (the cleanup
effect keyed on `imageBlobUrl`, plus the final teardown cleanup), and the
release never occurs while the handle is still the committed one — at every
prefix of the trace where the handle is the current committed value, no
release of it has yet happened.  Handles whose producer never settles are
never released. -/
theorem uploader_release_exactly_once
    (files : SessionFiles) (evs : List Ev) (j : Nat) (f : FileData)
    (hvalid : ValidSchedule evs)
    (hfile : files j = some f)
    (hcomp : Ev.complete j ∈ evs) :
    countN j (revokes (urlSeq files evs)) = 1 ∧
    ∀ pre post, evs = pre ++ post →
      (finalState files pre).imageBlobUrl = some j →
      countN j (revokesDuring (urlSeq files pre)) = 0 := by
  have hcount : countEv (Ev.complete j) evs = 1 := by
    have hle := (validFrom_count_complete j evs 0 [] [] hvalid).1
    have hge := one_le_countEv_of_mem hcomp
    omega
  constructor
  · apply revokes_count_one
    rw [countOpt_urlSeq files j f hfile evs, hcount]
  · intro pre post hsplit hurl
    have hne : pre ≠ [] := by
      intro h0
      rw [h0] at hurl
      simp [finalState, loadingValue] at hurl
    obtain ⟨front, e, hfe⟩ := exists_dropLast pre hne
    have hwr : (uwrite files e).imageBlobUrl = some j := by
      rw [hfe, finalState_append_single] at hurl
      exact hurl
    have he : e = Ev.complete j := by
      cases e with
      | effectRun i => simp [uwrite, loadingValue] at hwr
      | complete k =>
          cases hfk : files k with
          | none => simp [uwrite, producerOut, hfk] at hwr
          | some g =>
              simp only [uwrite, producerOut, hfk, Option.some.injEq] at hwr
              rw [hwr]
    subst he
    have hvalidpre : validFrom 0 [] [] pre = true := by
      apply validFrom_append pre post
      rw [← hsplit]
      exact hvalid
    have hprele : countEv (Ev.complete j) pre ≤ 1 :=
      (validFrom_count_complete j pre 0 [] [] hvalidpre).1
    have hfrontzero : countEv (Ev.complete j) front = 0 := by
      rw [hfe, countEv_append] at hprele
      simp [countEv] at hprele
      omega
    have hopt : countOpt j (urlSeq files front) = 0 := by
      rw [countOpt_urlSeq files j f hfile front, hfrontzero]
    have hurlpre : urlSeq files pre = urlSeq files front ++ [some j] := by
      rw [hfe, urlSeq_append_single]
      simp [uwrite, producerOut, hfile]
    rw [hurlpre]
    apply not_revoked_while_active
    · rw [List.getLast?_concat]
    · rw [List.dropLast_concat]
      exact hopt

/-- Witness for `uploader_release_exactly_once`: one upload whose producer
settles. -/
theorem uploader_release_exactly_once_witness :
    ValidSchedule [Ev.effectRun 0, Ev.complete 0] ∧
    (fun j => if j = 0 then some (⟨"a.png", 2, 2⟩ : FileData) else none) 0 =
      some ⟨"a.png", 2, 2⟩ ∧
    Ev.complete 0 ∈ [Ev.effectRun 0, Ev.complete 0] ∧
    (countN 0
        (revokes (urlSeq
          (fun j => if j = 0 then some ⟨"a.png", 2, 2⟩ else none)
          [Ev.effectRun 0, Ev.complete 0])) = 1 ∧
      ∀ pre post,
        ([Ev.effectRun 0, Ev.complete 0] : List Ev) = pre ++ post →
        (finalState (fun j => if j = 0 then some ⟨"a.png", 2, 2⟩ else none)
            pre).imageBlobUrl = some 0 →
        countN 0
          (revokesDuring (urlSeq
            (fun j => if j = 0 then some ⟨"a.png", 2, 2⟩ else none)
            pre)) = 0) :=
  ⟨by decide, rfl, by decide,
    uploader_release_exactly_once
      (fun j => if j = 0 then some ⟨"a.png", 2, 2⟩ else none)
      [Ev.effectRun 0, Ev.complete 0] 0 ⟨"a.png", 2, 2⟩
      (by decide) rfl (by decide)⟩

/-- C4 counterexample: with two rapid `replace(file)` calls whose producers
settle in inverted order, the session commits the metadata of the replaced
file "a.png" while the current source file (the latest signature's) is
"b.png" — the committed state is derived from a previously replaced file,
and a cancel straddled by such a stale settlement would likewise not leave
the state absent. -/
theorem uploader_stale_state_cex :
    ValidSchedule
      [Ev.effectRun 0, Ev.effectRun 1, Ev.complete 1, Ev.complete 0] ∧
    currentSig
      [Ev.effectRun 0, Ev.effectRun 1, Ev.complete 1, Ev.complete 0] =
      some 1 ∧
    (fun j => if j = 0 then some (⟨"a.png", 2, 2⟩ : FileData)
              else if j = 1 then some ⟨"b.png", 3, 3⟩ else none) 1 =
      some ⟨"b.png", 3, 3⟩ ∧
    (finalState
        (fun j => if j = 0 then some ⟨"a.png", 2, 2⟩
                  else if j = 1 then some ⟨"b.png", 3, 3⟩ else none)
        [Ev.effectRun 0, Ev.effectRun 1, Ev.complete 1,
          Ev.complete 0]).imageMetadata = some ⟨2, 2, "a.png"⟩ ∧
    ("a.png" : String) ≠ "b.png" := by
  refine ⟨by decide, by decide, rfl, by decide, by decide⟩

/-- C4 amended: in every reachable committed state, `imageBlobUrl` and
`imageMetadata` are both present or both absent; the committed pair after a
settlement of the current signature's producer is derived from the current
source file (so in particular when settlements occur in call order the state
follows the latest file); and a trace whose final settlement is of a
signature with no source file — e.g. `cancel()` followed by no further input
and no straddling stale settlement — leaves both absent. -/
theorem uploader_state_coherent
    (files : SessionFiles) (evs front : List Ev) (j : Nat) :
    ((finalState files evs).imageBlobUrl.isSome =
        (finalState files evs).imageMetadata.isSome) ∧
    (files j = none →
      finalState files (front ++ [Ev.complete j]) = loadingValue) ∧
    (∀ f : FileData, files j = some f →
      currentSig (front ++ [Ev.complete j]) = some j →
      finalState files (front ++ [Ev.complete j]) =
        ⟨some j, some ⟨f.width, f.height, f.name⟩⟩) := by
  refine ⟨?_, ?_, ?_⟩
  · by_cases h : evs = []
    · subst h; rfl
    · obtain ⟨fr, e, hfe⟩ := exists_dropLast evs h
      rw [hfe, finalState_append_single]
      cases e with
      | effectRun i => rfl
      | complete k =>
          cases hfk : files k <;> simp [uwrite, producerOut, hfk]
  · intro hnone
    rw [finalState_append_single]
    simp [uwrite, producerOut, hnone, loadingValue]
  · intro f hf _
    rw [finalState_append_single]
    simp [uwrite, producerOut, hf]

/-- Witness for `uploader_state_coherent`: a session cancelled after one
settled upload leaves both fields absent. -/
theorem uploader_state_coherent_witness :
    ((fun _ => (none : Option FileData)) 0 = none) ∧
    finalState (fun _ => none) ([Ev.effectRun 0] ++ [Ev.complete 0]) =
      loadingValue :=
  ⟨rfl,
    (uploader_state_coherent (fun _ => none) [] [Ev.effectRun 0] 0).2.1 rfl⟩

open Canvas Naming Pipeline Accept

namespace Naming

/-- Helper: replacing the first `".svg"` in `base ++ ".svg"` removes exactly
the appended pattern when `base` contains no dot. -/
lemma replaceFirst_append_pat (b : List Char) (hb : '.' ∉ b) :
    replaceFirst svgPat [] (b ++ svgPat) = b := by
  induction b with
  | nil => decide
  | cons c rest ih =>
      have hc : c ≠ '.' := fun h => hb (by simp [h])
      have hne : ('.' == c) = false := by
        simp only [beq_eq_false_iff_ne, ne_eq]
        exact fun h => hc h.symm
      have hnp : svgPat.isPrefixOf (c :: (rest ++ svgPat)) = false := by
        simp [svgPat, List.isPrefixOf, hne]
      have ih2 := ih fun h => hb (List.mem_cons_of_mem _ h)
      simp [replaceFirst, List.cons_append, hnp, ih2]

end Naming

/-- C5: for every pixel of the canvas outside the rounded-rectangle clip
path, the exported raster holds exactly the background fill composited over
the cleared canvas: zero alpha for `"transparent"`, fully opaque white or
black otherwise; and inside the clip region the source image is composited
over that same background — the background is drawn first over the full
canvas and is visible only where the clipped image does not cover it. -/
theorem rounded_corner_pixels (img : ℚ → ℚ → RGBA) (w h radius x y : ℚ)
    (hr : 0 < radius)
    (hin : inRect w h x y = true)
    (hout : insideClip w h radius x y = false) :
    roundedRender img w h radius BackgroundOption.transparent x y = clearPx ∧
    roundedRender img w h radius BackgroundOption.white x y = ⟨1, 1, 1, 1⟩ ∧
    roundedRender img w h radius BackgroundOption.black x y = ⟨0, 0, 0, 1⟩ ∧
    ∀ (bg : BackgroundOption) (a b : ℚ), insideClip w h radius a b = true →
      inRect w h a b = true →
      roundedRender img w h radius bg a b =
        srcOver (img a b) (srcOver (cssColor bg) clearPx) := by
  refine ⟨?_, ?_, ?_, ?_⟩
  · simp only [roundedRender, drawImageClipped, hout, Bool.false_eq_true,
      if_false, fillRect, clearRect, hin, if_true]
    simp only [srcOver, cssColor, clearPx]
    norm_num
  · simp only [roundedRender, drawImageClipped, hout, Bool.false_eq_true,
      if_false, fillRect, clearRect, hin, if_true]
    simp only [srcOver, cssColor, clearPx]
    norm_num
  · simp only [roundedRender, drawImageClipped, hout, Bool.false_eq_true,
      if_false, fillRect, clearRect, hin, if_true]
    simp only [srcOver, cssColor, clearPx]
    norm_num
  · intro bg a b hclip hrect
    simp only [roundedRender, drawImageClipped, hclip, if_true,
      fillRect, clearRect, hrect]

/-- Witness for `rounded_corner_pixels`: the origin pixel of a 4×4 image
with radius 1 lies outside the clip path; with a transparent background it
exports with zero alpha. -/
theorem rounded_corner_pixels_witness :
    (0 : ℚ) < 1 ∧ inRect 4 4 0 0 = true ∧ insideClip 4 4 1 0 0 = false ∧
    roundedRender (fun _ _ => ⟨1, 0, 0, 1⟩) 4 4 1
      BackgroundOption.transparent 0 0 = clearPx :=
  ⟨by norm_num,
    by norm_num [Canvas.inRect],
    by norm_num [Canvas.insideClip, Canvas.cornerInside, Canvas.inRect],
    (rounded_corner_pixels (fun _ _ => ⟨1, 0, 0, 1⟩) 4 4 1 0 0
      (by norm_num) (by norm_num [Canvas.inRect])
      (by norm_num [Canvas.insideClip, Canvas.cornerInside,
        Canvas.inRect])).1⟩

/-- C6: the radius used by the pipeline is the spec-modelled non-negative
clamp of the user input (a negative input becomes 0); the clip-path commands
are built from that radius verbatim for every width/height — in particular a
radius exceeding half the smaller dimension is not specially clamped, the
same curve construction is emitted; and the output canvas size equals the
image's native pixel dimensions (no resampling). -/
theorem rounded_radius_clamp_and_size (w h radius : ℚ) (m : Uploader.Meta) :
    clampRadius radius = (if radius < 0 then 0 else radius) ∧
    pathCommands w h (clampRadius radius) =
      [ PathCmd.moveTo (clampRadius radius) 0,
        PathCmd.lineTo (w - clampRadius radius) 0,
        PathCmd.quadraticCurveTo w 0 w (clampRadius radius),
        PathCmd.lineTo w (h - clampRadius radius),
        PathCmd.quadraticCurveTo w h (w - clampRadius radius) h,
        PathCmd.lineTo (clampRadius radius) h,
        PathCmd.quadraticCurveTo 0 h 0 (h - clampRadius radius),
        PathCmd.lineTo 0 (clampRadius radius),
        PathCmd.quadraticCurveTo 0 0 (clampRadius radius) 0 ] ∧
    roundedCanvasProps m = ((m.width : ℚ), (m.height : ℚ)) := by
  refine ⟨?_, rfl, rfl⟩
  by_cases hneg : radius < 0
  · rw [if_pos hneg]
    exact max_eq_right (le_of_lt hneg)
  · rw [if_neg hneg]
    exact max_eq_left (not_lt.mp hneg)

/-- C7 counterexample: the svg pipeline's canvas dimensions are
`native * scale` with no rounding; at native width 3 and scale 1/2 the
canvas width is 3/2, not `round(3 · 1/2) = 2` as the claim states. -/
theorem svg_dims_not_rounded_cex :
    (svgCanvasProps ⟨3, 3, "pic.svg"⟩ (1/2)).1 = 3/2 ∧
    (round ((3 : ℚ) * (1/2)) : ℤ) = 2 ∧
    ((3 : ℚ)/2) ≠ ((2 : ℤ) : ℚ) := by
  refine ⟨by norm_num [Canvas.svgCanvasProps], by norm_num [round_eq],
    by norm_num⟩

/-- C7 amended: the output dimensions are exactly `native_width * s ×
native_height * s` as computed (no rounding is applied; they agree with
`round` exactly when the products are integral), and at scale 1 the render
is identical to a direct unscaled draw of the source. -/
theorem svg_dims_exact_and_scale_one_identity (m : Uploader.Meta)
    (scale : ℚ) (img : ℚ → ℚ → RGBA) :
    svgCanvasProps m scale =
      ((m.width : ℚ) * scale, (m.height : ℚ) * scale) ∧
    svgRender img (m.width : ℚ) (m.height : ℚ) 1 =
      directDraw img (m.width : ℚ) (m.height : ℚ) := by
  refine ⟨rfl, ?_⟩
  unfold svgRender directDraw
  rw [mul_one, mul_one]

/-- C8 counterexample: the export name removes the first occurrence of the
substring `".svg"`, not the file extension: for source name `"a.svgb.svg"`
at scale 2 the code produces `"ab.svg-2x.png"`, not the claimed
`"a.svgb-2x.png"`. -/
theorem svg_filename_strips_first_occurrence_cex :
    svgDownloadName "a.svgb.svg" 2 = "ab.svg-2x.png" ∧
    svgDownloadName "a.svgb.svg" 2 ≠ "a.svgb-2x.png" := by
  exact ⟨by decide, by decide⟩

/-- C8 amended: the export name is the source name with the first occurrence
of the literal substring `".svg"` removed (the name is left unchanged when
the substring is absent, e.g. an uppercase `.SVG` extension survives),
followed by `-{s}x.png`; it is a deterministic function of name and scale
and coincides with extension removal exactly for names whose only `".svg"`
occurrence is the trailing extension — e.g. every name `base.svg` with a
dot-free `base`. -/
theorem svg_filename_formula (b : List Char) (s : ℚ) (hb : '.' ∉ b) :
    svgDownloadName ⟨b ++ svgPat⟩ s =
      (⟨b⟩ : String) ++ "-" ++ toString s ++ "x.png" := by
  unfold svgDownloadName
  have hdata : (String.mk (b ++ svgPat)).data = b ++ svgPat := rfl
  rw [hdata, Naming.replaceFirst_append_pat b hb]

/-- Witness for `svg_filename_formula`: `icon.svg` at scale 2 exports as
`icon-2x.png`. -/
theorem svg_filename_formula_witness :
    ('.' ∉ ("icon" : String).data) ∧
    svgDownloadName ⟨("icon" : String).data ++ svgPat⟩ 2 =
      (⟨("icon" : String).data⟩ : String) ++ "-" ++ toString (2 : ℚ) ++
        "x.png" :=
  ⟨by decide, svg_filename_formula ("icon" : String).data 2 (by decide)⟩

/-- C9 counterexample: when the canvas and context exist but `toBlob`
produces no blob, the pipeline's own promise still resolves — the encode
error rejects only the detached `saveImage` promise started inside
`img.onload` (`void saveImage()` is never awaited by `convertToPng`), so the
claim that the pipeline's promise rejects with an encode error is false;
no download is triggered, however. -/
theorem pipeline_encode_failure_cex :
    (convertToPng ⟨true, true, false⟩ "f.png").pipeline = Except.ok () ∧
    (convertToPng ⟨true, true, false⟩ "f.png").save =
      some (Except.error "Canvas blob could not be created") ∧
    (convertToPng ⟨true, true, false⟩ "f.png").downloads = [] :=
  ⟨rfl, rfl, rfl⟩

/-- C9 amended: the pipeline's promise rejects — with the render-context
error — exactly when no 2D context is available; an encode failure
(`toBlob` yields no blob) rejects the detached save promise with the encode
error, not the pipeline's; and a download is triggered exactly when context
acquisition and encoding both succeed, so in every failure case no partial
artifact is produced.  Both tools share this control flow with their
respective file namings. -/
theorem pipeline_error_flow (env : CanvasEnv) (name : String) (scale : ℚ) :
    ((convertToPng env name).pipeline =
        Except.error "Failed to get canvas context" ↔
      (env.canvasPresent && env.contextAvailable) = false) ∧
    ((convertToPng env name).save =
        some (Except.error "Canvas blob could not be created") ↔
      (env.canvasPresent && env.contextAvailable) = true ∧
        env.blobCreated = false) ∧
    ((convertToPng env name).downloads ≠ [] ↔
      (env.canvasPresent && env.contextAvailable && env.blobCreated) =
        true) ∧
    roundedConvert env name = convertToPng env (roundedDownloadName name) ∧
    svgConvert env name scale =
      convertToPng env (svgDownloadName name scale) := by
  rcases env with ⟨cp, ca, bc⟩
  cases cp <;> cases ca <;> cases bc <;>
    simp [convertToPng, roundedConvert, svgConvert]

/-- C10 counterexample: a pasted PNG (`image/png`) does not match the SVG
tool's narrow allowlist, yet it matches the wide allowlist hardwired into
`useFileUploader`'s clipboard-paste wiring — so the paste path accepts it
into the SVG tool's upload session, contradicting the claim that only
`.svg`/`image/svg+xml` files are accepted. -/
theorem svg_paste_accepts_png_cex :
    matchesAllowlist svgDropTypes ⟨"shot.png", "image/png"⟩ = false ∧
    matchesAllowlist uploaderPasteTypes ⟨"shot.png", "image/png"⟩ = true := by
  exact ⟨by decide, by decide⟩

/-- C10 amended: the drop path filters with the tool's narrow allowlist, and
everything it accepts the paste path accepts too; but the paste path uses
the uploader's fixed wide allowlist, which accepts every `image/*` MIME type
— so a pasted file of any image type enters the SVG tool's session. -/
theorem svg_accept_paths (f : PastedFile)
    (hdrop : matchesAllowlist svgDropTypes f = true) :
    matchesAllowlist uploaderPasteTypes f = true ∧
    ∀ g : PastedFile, ("image/" : String).data.isPrefixOf g.mime.data = true →
      matchesAllowlist uploaderPasteTypes g = true := by
  constructor
  · rcases f with ⟨n, m⟩
    simp only [matchesAllowlist, svgDropTypes, List.any_cons, List.any_nil,
      Bool.or_eq_true, Bool.or_false] at hdrop
    rcases hdrop with h1 | h2
    · have hm : m = "image/svg+xml" := by
        have h3 : ("image/svg+xml" == m) = true := h1
        exact (beq_iff_eq.mp h3).symm
      subst hm
      have ht : typeMatches "image/*" ⟨n, "image/svg+xml"⟩ = true := rfl
      simp [matchesAllowlist, uploaderPasteTypes, List.any_cons, ht]
    · simp only [matchesAllowlist, uploaderPasteTypes, List.any_cons,
        List.any_nil, Bool.or_eq_true, Bool.or_false]
      exact Or.inr (Or.inr (Or.inr (Or.inr (Or.inr h2))))
  · intro g hg
    rcases g with ⟨gn, gm⟩
    have ht : typeMatches "image/*" ⟨gn, gm⟩ =
        ("image/" : String).data.isPrefixOf gm.data := rfl
    simp only [matchesAllowlist, uploaderPasteTypes, List.any_cons,
      Bool.or_eq_true]
    exact Or.inl (ht.trans hg)

/-- Witness for `svg_accept_paths`: an `image/svg+xml` file is accepted on
both paths. -/
theorem svg_accept_paths_witness :
    matchesAllowlist svgDropTypes ⟨"a.svg", "image/svg+xml"⟩ = true ∧
    (matchesAllowlist uploaderPasteTypes ⟨"a.svg", "image/svg+xml"⟩ = true ∧
      ∀ g : PastedFile,
        ("image/" : String).data.isPrefixOf g.mime.data = true →
        matchesAllowlist uploaderPasteTypes g = true) :=
  ⟨by decide, svg_accept_paths ⟨"a.svg", "image/svg+xml"⟩ (by decide)⟩
